import Mathlib

/-!
Verification development for the `struct-to-docx` template renderer
(`DocxBuilder` in the TypeScript source). The definitions below are a
shallow embedding of the source's field resolution, inline-markup parsing,
text-run emission, paragraph rendering, style injection and unit helpers;
the theorems settle the specification's claims about them.
-/

namespace StructToDocx

/-! ## JSON data-bag model

The data bag handed to `render`/`renderHtml` is a JSON-serializable object
(`IData`).  `JValue` models the JSON values that survive the source's
`JSON.parse(JSON.stringify(data))` deep copy: strings and nested objects.
On such values the deep copy is the identity, so the model walks the bag
directly.  JavaScript property access on a string yields its character at a
canonical numeric index (here by code point) and nothing otherwise.
-/

inductive JValue where
  | str (s : String)
  | obj (entries : List (String × JValue))

/-- A data bag: the top-level JSON object, as an association list
(first binding wins, like JS object key lookup on distinct keys). -/
abbrev Bag := List (String × JValue)

/-- Property lookup on the first matching key of an object. -/
def bagLookup (bag : Bag) (k : String) : Option JValue :=
  (bag.find? (fun e => e.1 == k)).map (fun e => e.2)

/-- JS property access `v[k]` on a JSON value: object key lookup, or the
character of a string at a canonical numeric index. -/
def jindex : JValue → String → Option JValue
  | .obj m, k => bagLookup m k
  | .str s, k =>
    match k.toNat? with
    | some n => if toString n == k then (s.data.get? n).map (fun c => .str (String.mk [c])) else none
    | none => none

/-- JS truthiness of a JSON value: the empty string is falsy, every other
string and every object (even `\x7b\x7d`) is truthy. -/
def truthy : JValue → Bool
  | .str s => s ≠ ""
  | .obj _ => true

/-- JS `String(v)` coercion on a JSON value. -/
def jstring : JValue → String
  | .str s => s
  | .obj _ => "[object Object]"

/-- JS `String.prototype.split` with a one-character separator, over the
character list: JS `"a\nb".split("\n")` has the same segments. -/
def splitOnChar (c : Char) : List Char → List (List Char)
  | [] => [[]]
  | x :: rest =>
    if x = c then [] :: splitOnChar c rest
    else
      match splitOnChar c rest with
      | [] => [[x]]
      | h :: t => (x :: h) :: t

/-- The dot-split segments of a field path, as strings. -/
def dotSplit (f : String) : List String :=
  (splitOnChar '.' f.data).map String.mk

/-- The dotted walk of `renderChildren` (binary renderer, lines 183-198):
descend one segment at a time, aborting when the next value is missing or
falsy (`if (!tmpValue[fieldParts[i]]) break`). -/
def walkB : JValue → List String → Option JValue
  | v, [] => some v
  | v, p :: ps =>
    match jindex v p with
    | some w => if truthy w then walkB w ps else none
    | none => none

/-- The dotted walk of `renderChildrenHtml` (HTML renderer, lines 481-493):
descend one segment at a time, aborting only when the next value is missing
(`if (tmpValue[fieldParts[i]] === undefined) break`). -/
def walkH : JValue → List String → Option JValue
  | v, [] => some v
  | v, p :: ps =>
    match jindex v p with
    | some w => walkH w ps
    | none => none

/-- Field resolution of the binary renderer (`renderChildren`, lines
175-199): with a data bag and a truthy field, a literal key hit wins;
otherwise a dotted field is resolved by the falsy-aborting walk; any miss
keeps the run's literal default text. -/
def resolveB (data : Option Bag) (fieldOpt : Option String) (dflt : String) : String :=
  match data, fieldOpt with
  | some bag, some f =>
    if f = "" then dflt
    else
      match bagLookup bag f with
      | some v => jstring v
      | none =>
        if f.data.contains '.' then
          match walkB (.obj bag) (dotSplit f) with
          | some v => jstring v
          | none => dflt
        else dflt
  | _, _ => dflt

/-- Field resolution of the HTML renderer (`renderChildrenHtml`, lines
473-495): runs only under `options.htmlConfig`, guards only on the data bag
(`if (data)`), and uses the undefined-aborting walk. -/
def resolveH (data : Option Bag) (f : String) (dflt : String) : String :=
  match data with
  | some bag =>
    match bagLookup bag f with
    | some v => jstring v
    | none =>
      if f.data.contains '.' then
        match walkH (.obj bag) (dotSplit f) with
        | some v => jstring v
        | none => dflt
      else dflt
  | none => dflt

/-! ## Text-run options -/

/-- The `htmlConfig` attached to a text run (`IHtmlConfig` in `types.ts`).
Only the `field` member participates in value resolution; the control
`name` and `props` choose the emitted HTML element, not the value. -/
structure HtmlConfig where
  field : String
  deriving Repr, DecidableEq

/-- The options of a `text` run (`ITextTypeOptions`): the literal default
`text`, the data-binding `field`, the `htmlConfig`, the inline style flags
and the explicit break count (`break` in the source, `brk` here). -/
structure TextOptions where
  text : Option String := none
  field : Option String := none
  htmlConfig : Option HtmlConfig := none
  font : Option String := none
  size : Option Int := none
  bold : Option Bool := none
  italics : Option Bool := none
  underline : Option Bool := none
  strike : Option Bool := none
  subScript : Option Bool := none
  superScript : Option Bool := none
  brk : Option Nat := none
  deriving Repr, DecidableEq

/-- Effective field `options.field ?? options.htmlConfig?.field` (line 176): the explicit
field attribute wins, the html config's field is the fallback. -/
def effField (o : TextOptions) : Option String :=
  o.field <|> o.htmlConfig.map HtmlConfig.field

/-- The substitution value the binary renderer computes for a text run. -/
def substValueB (data : Option Bag) (o : TextOptions) : String :=
  resolveB data (effField o) (o.text.getD "")

/-- The substitution value the HTML renderer computes for a text run: only
a run with an `htmlConfig` is resolved, always through `htmlConfig.field`;
without one the literal text is used unchanged. -/
def substValueH (data : Option Bag) (o : TextOptions) : String :=
  match o.htmlConfig with
  | some cfg => resolveH data cfg.field (o.text.getD "")
  | none => o.text.getD ""

/-! ## Inline markup parser (`parseText`, lines 273-329)

The source splits the input on newline and, per line, collects all
non-overlapping matches of `<tag>(.*?)</tag>` for each supported inline
tag, sorts them by start offset, and emits plain-text gap segments between
the matched segments.  The regex scan is modelled by `scanTagAux`: the
earliest occurrence of the open tag followed by the earliest subsequent
occurrence of the close tag yields a match (non-greedy capture), and the
scan resumes after the close tag.  The fuel is bounded by the line length
plus one, which a scan consuming at least one character per match never
exhausts.
-/

/-- A regex match record: tag name, captured value, start offset and
end offset (`end` in the source) within the line. -/
structure TagMatch where
  ttype : String
  value : List Char
  start : Nat
  stop : Nat
  deriving Repr, DecidableEq

/-- The fixed inline tag vocabulary (line 278). -/
def inlineTags : List String := ["sup", "sub", "strong", "b", "em", "i", "del", "s", "u"]

/-- The literal open tag, as characters. -/
def openTag (tag : String) : List Char := ("<" ++ tag ++ ">").data

/-- The literal close tag, as characters. -/
def closeTag (tag : String) : List Char := ("</" ++ tag ++ ">").data

/-- Index of the first occurrence of `pat` in `s`, like `indexOf`. -/
def findIdx (pat : List Char) : List Char → Option Nat
  | [] => if pat.isPrefixOf ([] : List Char) then some 0 else none
  | c :: rest =>
    if pat.isPrefixOf (c :: rest) then some 0
    else (findIdx pat rest).map (· + 1)

/-- One global-regex scan for `tag` over the suffix `s` of the line that
starts at offset `base`; offsets in the produced matches are absolute. -/
def scanTagAux (tag : String) : Nat → List Char → Nat → List TagMatch
  | 0, _, _ => []
  | fuel + 1, s, base =>
    match findIdx (openTag tag) s with
    | none => []
    | some i =>
      match findIdx (closeTag tag) (s.drop (i + (openTag tag).length)) with
      | none => []
      | some j =>
        let stopRel := i + (openTag tag).length + j + (closeTag tag).length
        { ttype := tag,
          value := (s.drop (i + (openTag tag).length)).take j,
          start := base + i,
          stop := base + stopRel } :: scanTagAux tag fuel (s.drop stopRel) (base + stopRel)

/-- All matches of one tag over a whole line. -/
def scanTag (tag : String) (line : List Char) : List TagMatch :=
  scanTagAux tag (line.length + 1) line 0

/-- All matches of every supported tag, in tag-scan order (lines 284-294). -/
def allMatches (line : List Char) : List TagMatch :=
  inlineTags.flatMap (fun tag => scanTag tag line)

/-- Stable insertion by start offset. -/
def insertMatch (m : TagMatch) : List TagMatch → List TagMatch
  | [] => [m]
  | n :: rest => if m.start ≤ n.start then m :: n :: rest else n :: insertMatch m rest

/-- The stable sort by start offset (`matches.sort((a, b) => a.start - b.start)`). -/
def sortMatches : List TagMatch → List TagMatch
  | [] => []
  | m :: rest => insertMatch m (sortMatches rest)

/-- A typed segment of a parsed line: plain text or one inline tag. -/
structure Segment where
  ttype : String
  value : String
  deriving Repr, DecidableEq

/-- Segment assembly (lines 299-323): walk the sorted matches, emitting a
plain-text segment for each gap, the matched segment itself, and a final
plain-text segment for the remainder after the last match. -/
def buildParts (line : List Char) : List TagMatch → Nat → List Segment
  | [], lastIndex =>
    if lastIndex < line.length then
      [{ ttype := "text", value := String.mk (line.drop lastIndex) }]
    else []
  | m :: rest, lastIndex =>
    (if lastIndex < m.start then
      [{ ttype := "text", value := String.mk ((line.take m.start).drop lastIndex) }]
    else [])
    ++ { ttype := m.ttype, value := String.mk m.value } :: buildParts line rest m.stop

/-- Parse a single line into typed segments. -/
def parseLineChars (line : List Char) : List Segment :=
  buildParts line (sortMatches (allMatches line)) 0

/-- Parse one line given as a string. -/
def parseLine (line : String) : List Segment :=
  parseLineChars line.data

/-- Function `parseText`: split on newline, parse each line. -/
def parseText (input : String) : List (List Segment) :=
  (splitOnChar '\n' input.data).map parseLineChars

/-- The characters a segment stands for in the original line: a plain-text
segment is a literal slice, a tagged segment stands for its bracketed form. -/
def segChars (seg : Segment) : List Char :=
  if seg.ttype = "text" then seg.value.data
  else openTag seg.ttype ++ seg.value.data ++ closeTag seg.ttype

/-- A match is valid for a line when it carries a real tag name and its
offsets slice the line into `<tag>value</tag>`. -/
def matchValid (line : List Char) (m : TagMatch) : Prop :=
  m.ttype ≠ "text" ∧ m.stop ≤ line.length ∧ m.start ≤ m.stop ∧
    (line.take m.stop).drop m.start = openTag m.ttype ++ m.value ++ closeTag m.ttype

/-- Predicate `chainLB lb ms` holds when the matches in `ms` lie at or after offset
`lb` and are pairwise non-overlapping in order: the formal reading of "no
tags of different types overlap". -/
def chainLB (lb : Nat) : List TagMatch → Bool
  | [] => true
  | m :: rest => decide (lb ≤ m.start) && chainLB m.stop rest

/-! ## Text-run emission (`renderChildren`, lines 200-218) -/

/-- The builder's default font size: numeric points or one of the sixteen
named traditional Chinese sizes (`IFontSize`). -/
inductive ChineseFontSize where
  | chuhao | xiaochu | yihao | xiaoyi | erhao | xiaoer | sanhao | xiaosan
  | sihao | xiaosi | wuhao | xiaowu | liuhao | xiaoliu | qihao | bahao
  deriving Repr, DecidableEq

/-- The point value of each named size (`fontSizeMap`, lines 671-688);
`wuhao` is the entry the source spells 五号 (10.5 pt). -/
def fontSizeMap : ChineseFontSize → ℚ
  | .chuhao => 42
  | .xiaochu => 36
  | .yihao => 26
  | .xiaoyi => 24
  | .erhao => 22
  | .xiaoer => 18
  | .sanhao => 16
  | .xiaosan => 15
  | .sihao => 14
  | .xiaosi => 12
  | .wuhao => 21 / 2
  | .xiaowu => 9
  | .liuhao => 15 / 2
  | .xiaoliu => 13 / 2
  | .qihao => 11 / 2
  | .bahao => 5

/-- Type `IFontSize`: a numeric point size or a named Chinese size. -/
inductive FontSize where
  | num (pts : ℚ)
  | named (s : ChineseFontSize)

/-- Function `textSize` (lines 669-693): half-points, rounding like `Math.round`. -/
def textSize : FontSize → ℤ
  | .num q => round (q * 2)
  | .named s => round (fontSizeMap s * 2)

/-- One emitted `TextRun` primitive: the merged style flags and break
count the binary renderer passes to the document library (lines 203-215). -/
structure TextPrim where
  value : String
  font : String
  size : Int
  bold : Bool
  italics : Bool
  underline : Bool
  strike : Bool
  subScript : Bool
  superScript : Bool
  breakCount : Nat
  deriving Repr, DecidableEq

/-- Build the primitive for segment `item` at position (`li`, `ii`) of a
line of length `len`: explicit run options always win over type-derived
defaults; the computed break is 1 exactly for the last segment of a
non-first line (`lineIndex !== 0 && itemIndex === line.length - 1`). -/
def mkPrim (df : String) (ds : FontSize) (o : TextOptions)
    (li ii len : Nat) (item : Segment) : TextPrim where
  value := item.value
  font := o.font.getD df
  size := o.size.getD (textSize ds)
  bold := o.bold.getD (item.ttype == "strong" || item.ttype == "b")
  italics := o.italics.getD (item.ttype == "em" || item.ttype == "i")
  underline := o.underline.getD (item.ttype == "u")
  strike := o.strike.getD (item.ttype == "del" || item.ttype == "s")
  subScript := o.subScript.getD (item.ttype == "sub")
  superScript := o.superScript.getD (item.ttype == "sup")
  breakCount := o.brk.getD (if li ≠ 0 ∧ ii = len - 1 then 1 else 0)

/-- The primitives emitted for one parsed line. -/
def renderLine (df : String) (ds : FontSize) (o : TextOptions)
    (li : Nat) (line : List Segment) : List TextPrim :=
  line.enum.map (fun x => mkPrim df ds o li x.1 line.length x.2)

/-- The primitives emitted for a resolved text value: every (line, segment)
pair of `parseText` in order (lines 201-218). -/
def renderText (df : String) (ds : FontSize) (o : TextOptions)
    (value : String) : List TextPrim :=
  (parseText value).enum.flatMap (fun x => renderLine df ds o x.1 x.2)

/-! ## Paragraph-level rendering (`renderChildren`, lines 166-266) -/

/-- A run inside a paragraph: a text run or an image run (the image
payload is passed through structurally unchanged and is opaque here). -/
inductive RunItem where
  | text (o : TextOptions)
  | image (payload : String)

/-- A rendered paragraph child: a text primitive or an image primitive. -/
inductive ParagraphChild where
  | textRun (p : TextPrim)
  | imageRun (payload : String)

/-- A content node of the template tree (`IChildren` element): paragraph,
empty paragraph, or table of rows of cells of nested content. -/
inductive ContentNode where
  | paragraph (runs : List RunItem)
  | emptyParagraph
  | table (rows : List (List (List ContentNode)))

/-- A rendered file child: a paragraph of primitives, the blank paragraph
an `emptyParagraph` node always produces (a `Paragraph` holding one empty
`TextRun`), or a table of rows of cells of rendered children. -/
inductive FileChild where
  | para (children : List ParagraphChild)
  | blankPara
  | table (rows : List (List (List FileChild)))

/-- The paragraph children one run contributes: a text run is resolved and,
when non-empty, parsed and emitted segment by segment (line 201, `value
!== "" && ...`); an image run contributes itself. -/
def renderRun (df : String) (ds : FontSize) (data : Option Bag) : RunItem → List ParagraphChild
  | .text o =>
    let value := substValueB data o
    if value = "" then []
    else (renderText df ds o value).map ParagraphChild.textRun
  | .image p => [.imageRun p]

/-- Render one content node (lines 168-264): a paragraph with no resolved
children is dropped (lines 226-232), an `emptyParagraph` always yields one
blank paragraph (lines 234-243), a table recursively renders its cells. -/
def renderNode (df : String) (ds : FontSize) (data : Option Bag) : ContentNode → List FileChild
  | .paragraph runs =>
    let pc := runs.flatMap (renderRun df ds data)
    if pc.isEmpty then [] else [.para pc]
  | .emptyParagraph => [.blankPara]
  | .table rows =>
    [.table (rows.attach.map (fun r =>
      r.1.attach.map (fun c =>
        (c.1.attach.map (fun n => renderNode df ds data n.1)).flatten)))]
  decreasing_by
    simp_wf
    have h1 := List.sizeOf_lt_of_mem n.2
    have h2 := List.sizeOf_lt_of_mem c.2
    have h3 := List.sizeOf_lt_of_mem r.2
    omega

/-- Function `renderChildren`: each node contributes its rendered children in order. -/
def renderChildren (df : String) (ds : FontSize) (data : Option Bag)
    (nodes : List ContentNode) : List FileChild :=
  nodes.flatMap (renderNode df ds data)

/-! ## Style injection (`injectStyle`, lines 372-435; `renderHtml`, line 363)

The live DOM's head is modelled by the list of element ids present in
document order; `getElementById` finds an existing element, otherwise a
style element with the id is appended.
-/

/-- Function `injectStyle`: create-and-append only when no element with the id
exists. -/
def injectStyle (dom : List String) (id : String) : List String :=
  if id ∈ dom then dom else dom ++ [id]

/-- The effect of one `renderHtml` call on the DOM: every call injects the
shared stylesheet under the fixed id `docx-builder-style`. -/
def renderHtmlStyle (dom : List String) : List String :=
  injectStyle dom "docx-builder-style"

/-! ## Unit conversion helpers (lines 669-800)

JavaScript number arithmetic is modelled over `ℚ` with the source's
decimal literals taken exactly; `Math.round` is `round` (both are
`⌊x + 1/2⌋`).
-/

/-- Helper `cmToTwips` (line 771): `Math.round(cm * 566.93)`. -/
def cmToTwips (cm : ℚ) : ℤ := round (cm * (56693 / 100 : ℚ))

/-- Helper `cmToEmus` (line 780): `Math.round(cm * 360000)`. -/
def cmToEmus (cm : ℚ) : ℤ := round (cm * 360000)

/-- Helper `cmToPx` (line 789): `Math.round(cm * 96 / 2.54)`. -/
def cmToPx (cm : ℚ) : ℤ := round (cm * 96 / (254 / 100 : ℚ))

/-- Helper `twipsToPx` (line 798): `Math.round(twips * (96 / 1440))`. -/
def twipsToPx (twips : ℚ) : ℤ := round (twips * (96 / 1440 : ℚ))

/-- Helper `paragraphBorderSize` (line 700): `Math.round(points * 8)`. -/
def paragraphBorderSize (points : ℚ) : ℤ := round (points * 8)

/-- Helper `paragraphSpacingLine` (line 711): `Math.round(line * 240)`. -/
def paragraphSpacingLine (line : ℚ) : ℤ := round (line * 240)

/-- A text run with every option left unset (all defaults apply). -/
def plainRun : TextOptions := {}

/-! ## Parser lemmas -/

theorem findIdx_found {pat s : List Char} {i : Nat}
    (h : findIdx pat s = some i) : pat <+: s.drop i := by
  induction s generalizing i with
  | nil =>
    unfold findIdx at h
    split at h
    · cases h
      next hc => simpa using List.isPrefixOf_iff_prefix.mp hc
    · cases h
  | cons c rest ih =>
    unfold findIdx at h
    split at h
    · cases h
      next hc => simpa using List.isPrefixOf_iff_prefix.mp hc
    · rcases Option.map_eq_some'.mp h with ⟨j, hj, rfl⟩
      simpa using ih hj

theorem findIdx_bound {pat s : List Char} {i : Nat} (hne : pat ≠ [])
    (h : findIdx pat s = some i) : i + pat.length ≤ s.length := by
  have hp := (findIdx_found h).length_le
  rw [List.length_drop] at hp
  have hpos : 0 < pat.length := List.length_pos.mpr hne
  omega

theorem slice_glue {l : List Char} {a b : Nat} (hab : a ≤ b) (hb : b ≤ l.length) :
    (l.take b).drop a ++ l.drop b = l.drop a := by
  conv_rhs => rw [← List.take_append_drop b l, List.drop_append_eq_append_drop]
  rw [List.length_take, Nat.min_eq_left hb, Nat.sub_eq_zero_of_le hab, List.drop_zero]

theorem slice_shift {l : List Char} {base q r : Nat} (hb : base ≤ l.length) :
    (l.take (base + r)).drop (base + q) = ((l.drop base).take r).drop q := by
  rw [List.take_add, List.drop_append_eq_append_drop, List.length_take,
    Nat.min_eq_left hb]
  have h1 : (l.take base).drop (base + q) = [] := by
    rw [List.drop_eq_nil_iff, List.length_take]
    omega
  rw [h1, List.nil_append, Nat.add_sub_cancel_left]

theorem openTag_ne_nil (tag : String) : openTag tag ≠ [] := by
  simp [openTag]

theorem closeTag_ne_nil (tag : String) : closeTag tag ≠ [] := by
  simp [closeTag]

theorem scan_slice {s openT closeT value : List Char} {i j : Nat}
    (hop : openT <+: s.drop i)
    (hcp : closeT <+: (s.drop (i + openT.length)).drop j)
    (hval : value = (s.drop (i + openT.length)).take j) :
    (s.take (i + openT.length + j + closeT.length)).drop i
      = openT ++ value ++ closeT := by
  obtain ⟨t, ht⟩ := hop
  have htdrop : s.drop (i + openT.length) = t := by
    rw [← List.drop_drop, ← ht, List.drop_left]
  rw [List.drop_take]
  have harith : i + openT.length + j + closeT.length - i
      = openT.length + (j + closeT.length) := by omega
  rw [harith, ← ht, List.take_append]
  rw [htdrop] at hcp hval
  obtain ⟨u, hu⟩ := hcp
  rw [List.take_add, ← hu, List.take_left, hval]
  simp [List.append_assoc]

theorem scanTagAux_valid {tag : String} (htag : tag ≠ "text") {l : List Char} :
    ∀ (fuel base : Nat) (m : TagMatch),
      base ≤ l.length →
      m ∈ scanTagAux tag fuel (l.drop base) base → matchValid l m := by
  intro fuel
  induction fuel with
  | zero => intro base m _ hm; simp [scanTagAux] at hm
  | succ fuel ih =>
    intro base m hbase hm
    simp only [scanTagAux] at hm
    split at hm
    · simp at hm
    · next i hopen =>
      split at hm
      · simp at hm
      · next j hclose =>
        have hob := findIdx_bound (openTag_ne_nil tag) hopen
        have hcb := findIdx_bound (closeTag_ne_nil tag) hclose
        rw [List.length_drop] at hob
        rw [List.length_drop, List.length_drop] at hcb
        simp only [List.mem_cons] at hm
        rcases hm with rfl | hm
        · refine ⟨htag, ?_, ?_, ?_⟩
          · simp only
            omega
          · simp only
            omega
          · simp only
            rw [slice_shift hbase]
            exact scan_slice (findIdx_found hopen) (findIdx_found hclose) rfl
        · rw [List.drop_drop] at hm
          refine ih (base + (i + (openTag tag).length + j + (closeTag tag).length)) m ?_ hm
          omega

theorem scanTag_valid {tag : String} (htag : tag ≠ "text") {l : List Char}
    {m : TagMatch} (hm : m ∈ scanTag tag l) : matchValid l m := by
  refine scanTagAux_valid htag (l.length + 1) 0 m (Nat.zero_le _) ?_
  simpa [scanTag] using hm

theorem allMatches_valid {l : List Char} {m : TagMatch}
    (hm : m ∈ allMatches l) : matchValid l m := by
  rcases List.mem_flatMap.mp hm with ⟨tag, htag, hmem⟩
  have hne : tag ≠ "text" := by
    fin_cases htag <;> decide
  exact scanTag_valid hne hmem

theorem mem_insertMatch {m a : TagMatch} {ms : List TagMatch} :
    a ∈ insertMatch m ms ↔ a = m ∨ a ∈ ms := by
  induction ms with
  | nil => simp [insertMatch]
  | cons n rest ih =>
    simp only [insertMatch]
    split
    · simp [List.mem_cons]
    · simp only [List.mem_cons, ih]
      tauto

theorem mem_sortMatches {a : TagMatch} {ms : List TagMatch} :
    a ∈ sortMatches ms ↔ a ∈ ms := by
  induction ms with
  | nil => simp [sortMatches]
  | cons m rest ih => simp [sortMatches, mem_insertMatch, ih]

theorem buildParts_cov {l : List Char} :
    ∀ (ms : List TagMatch) (lastIndex : Nat),
      lastIndex ≤ l.length →
      (∀ m ∈ ms, matchValid l m) →
      chainLB lastIndex ms = true →
      ((buildParts l ms lastIndex).map segChars).flatten = l.drop lastIndex := by
  intro ms
  induction ms with
  | nil =>
    intro lastIndex hle _ _
    simp only [buildParts]
    split
    · simp [segChars]
    · have hnil : l.drop lastIndex = [] := List.drop_eq_nil_iff.mpr (by omega)
      simp [hnil]
  | cons m rest ih =>
    intro lastIndex hle hvalid hchain
    simp only [chainLB, Bool.and_eq_true, decide_eq_true_eq] at hchain
    obtain ⟨hlb, hchain⟩ := hchain
    obtain ⟨httype, hstople, hstartle, hslice⟩ := hvalid m (List.mem_cons_self _ _)
    have hstartlen : m.start ≤ l.length := le_trans hstartle hstople
    simp only [buildParts, List.map_append, List.flatten_append, List.map_cons,
      List.flatten_cons]
    have hpre : ((if lastIndex < m.start then
        [{ ttype := "text", value := String.mk ((l.take m.start).drop lastIndex) }]
        else []).map segChars).flatten = (l.take m.start).drop lastIndex := by
      split
      · simp [segChars]
      · have h1 : lastIndex = m.start := by omega
        have h2 : (l.take m.start).drop lastIndex = [] := by
          rw [List.drop_eq_nil_iff, List.length_take]
          omega
        simp [h2]
    have hseg : segChars { ttype := m.ttype, value := String.mk m.value } =
        (l.take m.stop).drop m.start := by
      rw [hslice]
      simp [segChars, httype]
    have hrest : ((buildParts l rest m.stop).map segChars).flatten = l.drop m.stop :=
      ih m.stop hstople (fun m' h => hvalid m' (List.mem_cons_of_mem _ h)) hchain
    rw [hpre, hseg, hrest, slice_glue hstartle hstople, slice_glue hlb hstartlen]

/-- Coverage of a parsed line: when the sorted matches do not overlap, the
segments reproduce the whole line with no overlap or gap. -/
theorem parseLineChars_cov {l : List Char}
    (h : chainLB 0 (sortMatches (allMatches l)) = true) :
    ((parseLineChars l).map segChars).flatten = l := by
  have := buildParts_cov (sortMatches (allMatches l)) 0 (Nat.zero_le _)
    (fun m hm => allMatches_valid (mem_sortMatches.mp hm)) h
  simpa [parseLineChars] using this

/-! ## Claim theorems -/

/-- C1: Field resolution in the binary renderer: a literal key hit takes
priority over the dotted walk and returns the stringified value; otherwise
a dotted path is walked segment by segment, as on the spec's examples
(literal `"inspect.0.level"` key, nested `a.b.c` hit, missing leaf falls
back to the default). -/
theorem claim1_field_resolution :
    (∀ (bag : Bag) (f dflt : String) (v : JValue), f ≠ "" →
        bagLookup bag f = some v →
        resolveB (some bag) (some f) dflt = jstring v)
    ∧ resolveB (some [("inspect.0.level", .str "S-1")])
        (some "inspect.0.level") "default" = "S-1"
    ∧ resolveB (some [("a", .obj [("b", .obj [("c", .str "X")])])])
        (some "a.b.c") "default" = "X"
    ∧ resolveB (some [("a", .obj [("b", .obj [])])])
        (some "a.b.c") "default" = "default" := by
  refine ⟨?_, rfl, rfl, rfl⟩
  intro bag f dflt v hne hit
  simp [resolveB, hne, hit]

theorem claim1_field_resolution_witness :
    resolveB (some [("k", JValue.str "v")]) (some "k") "d" = "v" :=
  claim1_field_resolution.1 [("k", JValue.str "v")] "k" "d" (JValue.str "v")
    (by decide) rfl

/-- C2: Field precedence in the binary renderer: with an explicit `field`
attribute the value is resolved through it, independently of any
`htmlConfig`; `htmlConfig.field` is consulted only when `field` is
absent. -/
theorem claim2_field_precedence :
    (∀ (data : Option Bag) (o : TextOptions) (f : String), o.field = some f →
        substValueB data o = resolveB data (some f) (o.text.getD ""))
    ∧ (∀ (data : Option Bag) (o : TextOptions) (f : String) (cfg : HtmlConfig),
        o.field = some f → o.htmlConfig = some cfg →
        substValueB data o = substValueB data { o with htmlConfig := none })
    ∧ (∀ (data : Option Bag) (o : TextOptions), o.field = none →
        substValueB data o
          = resolveB data (o.htmlConfig.map HtmlConfig.field) (o.text.getD "")) := by
  refine ⟨?_, ?_, ?_⟩
  · intro data o f hf
    simp [substValueB, effField, hf]
  · intro data o f cfg hf hcfg
    simp [substValueB, effField, hf]
  · intro data o hf
    simp [substValueB, effField, hf]

theorem claim2_field_precedence_witness :
    substValueB (some [("f", JValue.str "X")])
        { text := some "d", field := some "f", htmlConfig := some ⟨"g"⟩ }
      = resolveB (some [("f", JValue.str "X")]) (some "f") "d" :=
  claim2_field_precedence.1 (some [("f", JValue.str "X")])
    { text := some "d", field := some "f", htmlConfig := some ⟨"g"⟩ } "f" rfl

/-- C3: Field resolution is total (a Lean function, so it never throws) and
silent: every miss — no literal key and a dotted walk that aborts, or a
path with no dot at all — returns exactly the default text; a completed
walk returns the stringified final cursor; and the walk descends one
segment at a time, requiring each visited value to be present and
truthy. -/
theorem claim3_resolution_total_silent :
    (∀ (bag : Bag) (f dflt : String),
        bagLookup bag f = none →
        walkB (.obj bag) (dotSplit f) = none →
        resolveB (some bag) (some f) dflt = dflt)
    ∧ (∀ (bag : Bag) (f dflt : String),
        bagLookup bag f = none → f.data.contains '.' = false →
        resolveB (some bag) (some f) dflt = dflt)
    ∧ (∀ (bag : Bag) (f dflt : String) (v : JValue), f ≠ "" →
        bagLookup bag f = none → f.data.contains '.' = true →
        walkB (.obj bag) (dotSplit f) = some v →
        resolveB (some bag) (some f) dflt = jstring v)
    ∧ (∀ (v : JValue) (p : String) (ps : List String) (w : JValue),
        walkB v (p :: ps) = some w ↔
          ∃ u, jindex v p = some u ∧ truthy u = true ∧ walkB u ps = some w) := by
  refine ⟨?_, ?_, ?_, ?_⟩
  · intro bag f dflt hlit hwalk
    by_cases hne : f = ""
    · simp [resolveB, hne]
    · simp [resolveB, hne, hlit, hwalk]
  · intro bag f dflt hlit hdot
    have hdot' : '.' ∉ f.data := by simpa using hdot
    by_cases hne : f = ""
    · simp [resolveB, hne]
    · simp [resolveB, hne, hlit, hdot']
  · intro bag f dflt v hne hlit hdot hwalk
    have hdot' : '.' ∈ f.data := by simpa using hdot
    simp [resolveB, hne, hlit, hdot', hwalk]
  · intro v p ps w
    cases hj : jindex v p with
    | none => simp [walkB, hj]
    | some u => cases ht : truthy u <;> simp [walkB, hj, ht]

theorem claim3_resolution_total_silent_witness :
    resolveB (some [("a", JValue.str "x")]) (some "b.c") "dflt" = "dflt" :=
  claim3_resolution_total_silent.1 [("a", JValue.str "x")] "b.c" "dflt" rfl rfl

/-- C4 counterexample: a run carrying both `field` and `htmlConfig.field`
resolves through `field` in the binary renderer but through
`htmlConfig.field` in the HTML renderer, so the two substitution values
differ on a bag binding both keys. -/
theorem claim4_parity_counterexample :
    substValueB (some [("f", JValue.str "X"), ("g", JValue.str "Y")])
        { text := some "d", field := some "f", htmlConfig := some ⟨"g"⟩ } = "X"
    ∧ substValueH (some [("f", JValue.str "X"), ("g", JValue.str "Y")])
        { text := some "d", field := some "f", htmlConfig := some ⟨"g"⟩ } = "Y"
    ∧ ("X" : String) ≠ "Y" :=
  ⟨rfl, rfl, by decide⟩

/-- C4 amended: dual-renderer resolution parity holds for a run without an
explicit `field` attribute, with an `htmlConfig` whose field is non-empty,
whenever the binary renderer's falsy-aborting dotted walk and the HTML
renderer's undefined-aborting walk agree on the path (in particular
whenever the literal key hits or the path has no dot). -/
theorem claim4_parity_amended :
    ∀ (bag : Bag) (o : TextOptions) (cfg : HtmlConfig),
      o.field = none → o.htmlConfig = some cfg → cfg.field ≠ "" →
      walkB (.obj bag) (dotSplit cfg.field)
        = walkH (.obj bag) (dotSplit cfg.field) →
      substValueB (some bag) o = substValueH (some bag) o := by
  intro bag o cfg hf hcfg hne hwalk
  simp only [substValueB, substValueH, effField, hf, hcfg, Option.map_some',
    Option.none_orElse]
  simp only [resolveB, resolveH, if_neg hne]
  cases hb : bagLookup bag cfg.field with
  | some v => simp [hb]
  | none =>
    simp only [hb]
    by_cases hc : '.' ∈ cfg.field.data
    · simp [hc, hwalk]
    · simp [hc]

theorem claim4_parity_amended_witness :
    substValueB (some [("g", JValue.str "Y")])
        { text := some "d", htmlConfig := some ⟨"g"⟩ }
      = substValueH (some [("g", JValue.str "Y")])
        { text := some "d", htmlConfig := some ⟨"g"⟩ } :=
  claim4_parity_amended [("g", JValue.str "Y")]
    { text := some "d", htmlConfig := some ⟨"g"⟩ } ⟨"g"⟩ rfl rfl (by decide) rfl

/-- C5: Inline markup parsing: `parseText` splits on newline (one segment
list per line); per line, when the sorted matches do not overlap, the
typed segments cover the line in order with no overlap or gap (their
concatenated character content reproduces the line exactly); and on the
spec's example it yields the three segments in order. -/
theorem claim5_markup_segmentation :
    (∀ (s : String), (parseText s).length = (splitOnChar '\n' s.data).length)
    ∧ (∀ (l : List Char), chainLB 0 (sortMatches (allMatches l)) = true →
        ((parseLineChars l).map segChars).flatten = l)
    ∧ parseText "hello <strong>world</strong>!"
        = [[{ ttype := "text", value := "hello " },
            { ttype := "strong", value := "world" },
            { ttype := "text", value := "!" }]] := by
  refine ⟨?_, ?_, by decide⟩
  · intro s
    simp [parseText]
  · exact fun l h => parseLineChars_cov h

theorem claim5_markup_segmentation_witness :
    ((parseLineChars "hello <strong>world</strong>!".data).map segChars).flatten
      = "hello <strong>world</strong>!".data :=
  claim5_markup_segmentation.2.1 "hello <strong>world</strong>!".data (by decide)

/-- C6 counterexample: on the resolved value `"x <b>y</b>"` the first line
has two segments; the second one is not the first segment of the first
line, yet its computed break count is 0, not the leading break the claim
predicts. -/
theorem claim6_break_counterexample :
    ((renderText "Arial" (.num 10) plainRun "x <b>y</b>")[1]?).map
        TextPrim.breakCount = some 0
    ∧ (some 0 : Option Nat) ≠ some 1 :=
  ⟨by decide, by decide⟩

/-- C6 amended: an emitted text primitive gets a leading break exactly when
its line is not the first and it is the last segment of its line
(`lineIndex !== 0 && itemIndex === line.length - 1`); an explicit `break`
option overrides this computed value on every emitted primitive; and the
emission enumerates every (line, segment) pair of the parsed value in
order. -/
theorem claim6_break_amended :
    (∀ (df : String) (ds : FontSize) (o : TextOptions) (li : Nat)
        (ln : List Segment) (ii : Nat) (seg : Segment),
        o.brk = none → ln[ii]? = some seg →
        ((renderLine df ds o li ln)[ii]?).map TextPrim.breakCount
          = some (if li ≠ 0 ∧ ii = ln.length - 1 then 1 else 0))
    ∧ (∀ (df : String) (ds : FontSize) (o : TextOptions) (value : String)
        (n : Nat) (p : TextPrim),
        o.brk = some n → p ∈ renderText df ds o value → p.breakCount = n)
    ∧ (∀ (df : String) (ds : FontSize) (o : TextOptions) (value : String),
        renderText df ds o value
          = (parseText value).enum.flatMap (fun x => renderLine df ds o x.1 x.2)) := by
  refine ⟨?_, ?_, fun _ _ _ _ => rfl⟩
  · intro df ds o li ln ii seg hbrk hii
    simp [renderLine, List.getElem?_map, List.enum, List.getElem?_enumFrom, hii,
      mkPrim, hbrk]
  · intro df ds o value n p hbrk hp
    simp only [renderText, List.mem_flatMap] at hp
    obtain ⟨x, _, hp⟩ := hp
    simp only [renderLine, List.mem_map] at hp
    obtain ⟨y, _, rfl⟩ := hp
    simp [mkPrim, hbrk]

theorem claim6_break_amended_witness :
    ((renderLine "Arial" (.num 10) plainRun 2
        [{ ttype := "text", value := "b" }])[0]?).map TextPrim.breakCount
      = some (if (2 : Nat) ≠ 0 ∧ (0 : Nat) =
            ([{ ttype := "text", value := "b" }] : List Segment).length - 1
          then 1 else 0) :=
  claim6_break_amended.1 "Arial" (.num 10) plainRun 2
    [{ ttype := "text", value := "b" }] 0 { ttype := "text", value := "b" } rfl rfl

/-- C7: Empty-paragraph suppression: a paragraph whose runs contribute no
primitives (in particular one whose sole text run resolves to the empty
string) contributes zero output nodes — also inside a surrounding child
list — while a literal `emptyParagraph` node always contributes exactly
one blank-line paragraph node. -/
theorem claim7_empty_paragraph_suppression :
    (∀ (df : String) (ds : FontSize) (data : Option Bag) (runs : List RunItem),
        runs.flatMap (renderRun df ds data) = [] →
        renderNode df ds data (.paragraph runs) = [])
    ∧ (∀ (df : String) (ds : FontSize) (data : Option Bag) (o : TextOptions),
        substValueB data o = "" →
        renderNode df ds data (.paragraph [.text o]) = [])
    ∧ (∀ (df : String) (ds : FontSize) (data : Option Bag)
        (pre post : List ContentNode) (runs : List RunItem),
        runs.flatMap (renderRun df ds data) = [] →
        renderChildren df ds data (pre ++ .paragraph runs :: post)
          = renderChildren df ds data (pre ++ post))
    ∧ (∀ (df : String) (ds : FontSize) (data : Option Bag),
        renderNode df ds data .emptyParagraph = [.blankPara]) := by
  refine ⟨?_, ?_, ?_, ?_⟩
  · intro df ds data runs h
    simp [renderNode, h]
  · intro df ds data o h
    simp [renderNode, renderRun, h]
  · intro df ds data pre post runs h
    simp [renderChildren, renderNode, h]
  · intro df ds data
    simp [renderNode]

theorem claim7_empty_paragraph_suppression_witness :
    renderNode "Arial" (.num 10) (some []) (.paragraph [.text { text := some "" }])
      = [] :=
  claim7_empty_paragraph_suppression.2.1 "Arial" (.num 10) (some [])
    { text := some "" } rfl

/-- C8: Blank lines inside a resolved value are silently lost: an empty
line parses to an empty segment list, so it emits no text primitive and no
extra break; on `"a\n\nb"` exactly two primitives are emitted, `"a"` with
no break and `"b"` with a single leading break. -/
theorem claim8_blank_lines_lost :
    (∀ (s : String) (li : Nat), (splitOnChar '\n' s.data)[li]? = some [] →
        (parseText s)[li]? = some [])
    ∧ (renderText "Arial" (.num 10) plainRun "a\n\nb").map
        (fun p => (p.value, p.breakCount)) = [("a", 0), ("b", 1)] := by
  constructor
  · intro s li h
    simp [parseText, List.getElem?_map, h]
    rfl
  · decide

theorem claim8_blank_lines_lost_witness :
    (parseText "a\n\nb")[1]? = some [] :=
  claim8_blank_lines_lost.1 "a\n\nb" 1 (by decide)

/-- C9: Idempotent style injection: injecting the shared stylesheet id
twice equals injecting it once; injecting an id already present changes
nothing; and any number of `renderHtml` calls leaves at most one element
with the id `docx-builder-style` in the document head. -/
theorem claim9_style_injection_idempotent :
    (∀ dom : List String, renderHtmlStyle (renderHtmlStyle dom) = renderHtmlStyle dom)
    ∧ (∀ (dom : List String) (id : String), id ∈ dom → injectStyle dom id = dom)
    ∧ (∀ (n : Nat) (dom : List String),
        dom.count "docx-builder-style" ≤ 1 →
        (renderHtmlStyle^[n] dom).count "docx-builder-style" ≤ 1) := by
  have hmem : ∀ (dom : List String) (id : String), id ∈ dom →
      injectStyle dom id = dom := by
    intro dom id h
    simp [injectStyle, h]
  have hidem : ∀ (dom : List String) (id : String),
      injectStyle (injectStyle dom id) id = injectStyle dom id := by
    intro dom id
    by_cases h : id ∈ dom
    · simp [injectStyle, h]
    · simp [injectStyle, h]
  have hstep : ∀ dom : List String, dom.count "docx-builder-style" ≤ 1 →
      (renderHtmlStyle dom).count "docx-builder-style" ≤ 1 := by
    intro dom h
    unfold renderHtmlStyle injectStyle
    split
    · exact h
    · next hni =>
      rw [List.count_append]
      rw [List.count_eq_zero.mpr hni]
      simp
  refine ⟨fun dom => hidem dom _, hmem, ?_⟩
  intro n
  induction n with
  | zero => intro dom h; simpa using h
  | succ n ih =>
    intro dom h
    rw [Function.iterate_succ_apply]
    exact ih _ (hstep dom h)

theorem claim9_style_injection_idempotent_witness :
    (renderHtmlStyle^[2] []).count "docx-builder-style" ≤ 1 :=
  claim9_style_injection_idempotent.2.2 2 [] (by decide)

/-- C10: The unit helpers are the pure rounding formulas of the source:
`cmToTwips cm = round (cm * 566.93)` with `cmToTwips 1 = 567`,
`twipsToPx 567 = 38`, `textSize 12 = 24`, and the sixteen named
traditional sizes are mapped through the size table, e.g. the 五号 entry
(`wuhao`, 10.5 pt) gives 21 half-points. -/
theorem claim10_unit_conversions :
    (∀ cm : ℚ, cmToTwips cm = round (cm * (56693 / 100 : ℚ)))
    ∧ cmToTwips 1 = 567
    ∧ twipsToPx 567 = 38
    ∧ textSize (.num 12) = 24
    ∧ textSize (.named .wuhao) = 21 := by
  refine ⟨fun _ => rfl, ?_, ?_, ?_, ?_⟩ <;>
    · simp only [cmToTwips, twipsToPx, textSize, fontSizeMap]
      rw [round_eq]
      norm_num

end StructToDocx
